import Mathlib

/-!
Verification of the notedeck media cache (`crates/notedeck/src/imgcache.rs`)
and the relay pool manager (`crates/notedeck_columns/src/relay_pool_manager.rs`).

Shallow embedding conventions:
* Rust byte strings (`url.as_bytes()`) are `List Nat` with each element < 256.
* Filesystem paths built by `PathBuf::join` are `List String` segment lists;
  the rendered relative-path string uses `/` separators as on Unix.
* External collaborators (the `base32` decoder, `std::fs` outcomes, the image
  codecs) are environment parameters: the theorems are about the control flow
  of the repository's own code, which is embedded faithfully.
-/

namespace Notedeck

/-! ### SHA-256 (the `sha2` crate's `Sha256::digest`), over byte lists -/

/-- Truncate to a 32-bit word. -/
def w32 (n : Nat) : Nat := n % 2 ^ 32

/-- Right rotation of a 32-bit word by `n` bits. -/
def rotr (n w : Nat) : Nat := w32 (w / 2 ^ n + w % 2 ^ n * 2 ^ (32 - n))

/-- Right shift of a 32-bit word. -/
def shr (n w : Nat) : Nat := w / 2 ^ n

/-- Bitwise complement within 32 bits. -/
def not32 (w : Nat) : Nat := 2 ^ 32 - 1 - w % 2 ^ 32

def ch (x y z : Nat) : Nat := Nat.xor (Nat.land x y) (Nat.land (not32 x) z)

def maj (x y z : Nat) : Nat :=
  Nat.xor (Nat.xor (Nat.land x y) (Nat.land x z)) (Nat.land y z)

def bigSigma0 (x : Nat) : Nat := Nat.xor (Nat.xor (rotr 2 x) (rotr 13 x)) (rotr 22 x)
def bigSigma1 (x : Nat) : Nat := Nat.xor (Nat.xor (rotr 6 x) (rotr 11 x)) (rotr 25 x)
def smallSigma0 (x : Nat) : Nat := Nat.xor (Nat.xor (rotr 7 x) (rotr 18 x)) (shr 3 x)
def smallSigma1 (x : Nat) : Nat := Nat.xor (Nat.xor (rotr 17 x) (rotr 19 x)) (shr 10 x)

/-- The SHA-256 round constants. -/
def K256 : List Nat :=
  [1116352408, 1899447441, 3049323471, 3921009573, 961987163, 1508970993,
   2453635748, 2870763221, 3624381080, 310598401, 607225278, 1426881987,
   1925078388, 2162078206, 2614888103, 3248222580, 3835390401, 4022224774,
   264347078, 604807628, 770255983, 1249150122, 1555081692, 1996064986,
   2554220882, 2821834349, 2952996808, 3210313671, 3336571891, 3584528711,
   113926993, 338241895, 666307205, 773529912, 1294757372, 1396182291,
   1695183700, 1986661051, 2177026350, 2456956037, 2730485921, 2820302411,
   3259730800, 3345764771, 3516065817, 3600352804, 4094571909, 275423344,
   430227734, 506948616, 659060556, 883997877, 958139571, 1322822218,
   1537002063, 1747873779, 1955562222, 2024104815, 2227730452, 2361852424,
   2428436474, 2756734187, 3204031479, 3329325298]

/-- Working state: the eight 32-bit hash words. -/
structure Hash8 where
  a : Nat
  b : Nat
  c : Nat
  d : Nat
  e : Nat
  f : Nat
  g : Nat
  h : Nat
deriving DecidableEq

/-- SHA-256 initial hash value. -/
def initH : Hash8 :=
  ⟨1779033703, 3144134277, 1013904242, 2773480762,
   1359893119, 2600822924, 528734635, 1541459225⟩

/-- One compression round, fed the pair (round constant, schedule word). -/
def compressStep (st : Hash8) (kw : Nat × Nat) : Hash8 :=
  let t1 := w32 (st.h + bigSigma1 st.e + ch st.e st.f st.g + kw.1 + kw.2)
  let t2 := w32 (bigSigma0 st.a + maj st.a st.b st.c)
  ⟨w32 (t1 + t2), st.a, st.b, st.c, w32 (st.d + t1), st.e, st.f, st.g⟩

/-- Pointwise 32-bit addition of hash states. -/
def add8 (x y : Hash8) : Hash8 :=
  ⟨w32 (x.a + y.a), w32 (x.b + y.b), w32 (x.c + y.c), w32 (x.d + y.d),
   w32 (x.e + y.e), w32 (x.f + y.f), w32 (x.g + y.g), w32 (x.h + y.h)⟩

/-- Big-endian 32-bit words from a byte list (4 bytes per word). -/
def toWords : List Nat → List Nat
  | b0 :: b1 :: b2 :: b3 :: rest =>
      (((b0 * 256 + b1) * 256 + b2) * 256 + b3) :: toWords rest
  | _ => []

/-- Extend a 16-word block to the 64-word message schedule (`fuel` = 48). -/
def extendSchedule : List Nat → Nat → List Nat
  | ws, 0 => ws
  | ws, fuel + 1 =>
      let n := ws.length
      let next := w32 (smallSigma1 (ws.getD (n - 2) 0) + ws.getD (n - 7) 0 +
        smallSigma0 (ws.getD (n - 15) 0) + ws.getD (n - 16) 0)
      extendSchedule (ws ++ [next]) fuel

/-- Compress one 64-byte block into the running hash state. -/
def compressBlock (h : Hash8) (block : List Nat) : Hash8 :=
  let ws := extendSchedule (toWords block) 48
  add8 h ((K256.zip ws).foldl compressStep h)

/-- Split into successive 64-byte chunks. -/
def chunks64 (l : List Nat) : List (List Nat) :=
  if h : l = [] then []
  else
    have : (l.drop 64).length < l.length := by
      rw [List.length_drop]
      exact Nat.sub_lt (List.length_pos.mpr h) (by norm_num)
  l.take 64 :: chunks64 (l.drop 64)
termination_by l.length

/-- Big-endian bytes of `n`, `k` bytes wide. -/
def beBytes : Nat → Nat → List Nat
  | 0, _ => []
  | k + 1, n => beBytes k (n / 256) ++ [n % 256]

/-- SHA-256 padding: append `0x80`, zeros, and the 64-bit big-endian bit length,
reaching a multiple of 64 bytes. -/
def sha256pad (msg : List Nat) : List Nat :=
  let len := msg.length
  let zeros := (119 - len % 64) % 64
  msg ++ 0x80 :: List.replicate zeros 0 ++ beBytes 8 (len * 8)

/-- Serialize one 32-bit word to 4 big-endian bytes. -/
def wordBytes (w : Nat) : List Nat :=
  [w / 2 ^ 24 % 256, w / 2 ^ 16 % 256, w / 2 ^ 8 % 256, w % 256]

/-- SHA-256 digest of a byte list: 32 bytes. -/
def sha256 (msg : List Nat) : List Nat :=
  let fin := (chunks64 (sha256pad msg)).foldl compressBlock initH
  wordBytes fin.a ++ wordBytes fin.b ++ wordBytes fin.c ++ wordBytes fin.d ++
  wordBytes fin.e ++ wordBytes fin.f ++ wordBytes fin.g ++ wordBytes fin.h

/-! ### Lowercase hex encoding (the `hex` crate's `encode_hex`) -/

/-- The sixteen lowercase hex digits. -/
def hexDigits : List Char := "0123456789abcdef".toList

/-- Hex digit for a nibble. -/
def hexChar (n : Nat) : Char := hexDigits.getD n '0'

/-- Lowercase hex encoding of a byte list, two characters per byte,
high nibble first. -/
def encodeHex (bs : List Nat) : List Char :=
  bs.flatMap (fun b => [hexChar (b / 16), hexChar (b % 16)])

/-! ### Cache key (`MediaCache::key`)

A Rust `&str` is its UTF-8 byte sequence; URLs are modeled as `List Nat`
(the bytes `url.as_bytes()`). -/

/-- The hex digest string `k` of `MediaCache::key`:
`sha2::Sha256::digest(url.as_bytes()).encode_hex()`. -/
def keyDigest (url : List Nat) : List Char := encodeHex (sha256 url)

/-- Filesystem paths as segment lists (what `PathBuf::join` accumulates). -/
abbrev Path := List String

/-- In-memory cache: `MediaCache { cache_dir, url_imgs }`.  The `url_imgs`
map of in-flight promises is runtime-only state no claim touches and is
omitted. -/
structure MediaCache where
  cache_dir : Path
deriving DecidableEq

inductive MediaCacheType
  | image
  | gif
deriving DecidableEq

def MediaCache.new (cache_dir : Path) : MediaCache := ⟨cache_dir⟩

def MediaCache.rel_dir : MediaCacheType → String
  | .image => "img"
  | .gif => "gif"

/-- Embeds `MediaCache::key`: the three path segments
`PathBuf::from(&k[0..2]).join(&k[2..4]).join(k)`. -/
def MediaCache.keySegs (url : List Nat) : List String :=
  let k := keyDigest url
  [String.mk (k.take 2), String.mk ((k.drop 2).take 2), String.mk k]

/-- Embeds `MediaCache::key`: the rendered relative-path string
(`to_string_lossy` of the joined path, `/`-separated). -/
def MediaCache.key (url : List Nat) : String :=
  String.intercalate "/" (MediaCache.keySegs url)

/-! ### Animation frames -/

/-- Embeds `TextureFrame { delay, texture }`: the delay in nanoseconds and the
renderer's opaque `TextureHandle`, modeled by an id. -/
structure TextureFrame where
  delay : Nat
  texture : Nat
deriving DecidableEq

/-- Embeds `Animation { first_frame, other_frames, receiver }`; the channel
receiver is opaque, modeled by an optional id. -/
structure Animation where
  first_frame : TextureFrame
  other_frames : List TextureFrame
  receiver : Option Nat

/-- Embeds `Animation::get_frame`. -/
def Animation.get_frame (a : Animation) (index : Nat) : Option TextureFrame :=
  if index = 0 then some a.first_frame
  else a.other_frames[index - 1]?

/-- Embeds `Animation::num_frames`. -/
def Animation.num_frames (a : Animation) : Nat :=
  a.other_frames.length + 1

/-! ### Images registry (`Images::new`) -/

/-- Embeds `Images { static_imgs, gifs, .. }`.  The `urls` MIME cache and
`gif_states` playback table are external/runtime state no claim touches. -/
structure Images where
  static_imgs : MediaCache
  gifs : MediaCache
deriving DecidableEq

/-- Embeds `Images::new(path)`. -/
def Images.new (path : Path) : Images :=
  { static_imgs := MediaCache.new (path ++ [MediaCache.rel_dir .image])
    gifs := MediaCache.new (path ++ [MediaCache.rel_dir .gif]) }

/-! ### Relay pool manager (`relay_pool_manager.rs`)

`RelayPoolManager` holds `&mut RelayPool`; its methods are modeled as
functions from pool to pool. -/

/-- An `enostr` relay, at the interface the manager uses: a url and a
status (opaque, as an id). -/
structure Relay where
  url : String
  status : Nat
deriving DecidableEq

structure RelayPool where
  relays : List Relay
deriving DecidableEq

structure RelayInfo where
  relay_url : String
  status : Nat
deriving DecidableEq

namespace RelayPoolManager

/-- Embeds `RelayPoolManager::get_relay_infos`. -/
def get_relay_infos (pool : RelayPool) : List RelayInfo :=
  pool.relays.map (fun relay => ⟨relay.url, relay.status⟩)

/-- Embeds `RelayPoolManager::remove_relay`: bounds-checked `Vec::remove`. -/
def remove_relay (pool : RelayPool) (index : Nat) : RelayPool :=
  if index < pool.relays.length then ⟨pool.relays.eraseIdx index⟩ else pool

/-- Embeds `indices.sort_unstable_by(|a, b| b.cmp(a))`: sort descending. -/
def sortDesc (l : List Nat) : List Nat :=
  l.mergeSort (fun a b => decide (b ≤ a))

/-- Embeds `RelayPoolManager::remove_relays`: sort the indices descending, then
remove each in turn. -/
def remove_relays (pool : RelayPool) (indices : List Nat) : RelayPool :=
  (sortDesc indices).foldl remove_relay pool

end RelayPoolManager

/-- Spec-side helper for C9: keep the elements whose absolute position
(counting from `n`) satisfies `p`. -/
def keepIdxFrom {α : Type} (p : Nat → Bool) : Nat → List α → List α
  | _, [] => []
  | n, a :: as => if p n then a :: keepIdxFrom p (n + 1) as else keepIdxFrom p (n + 1) as

/-- Spec-side reading of C9: "removes exactly the relays that occupied
those positions in the original relay list". -/
def removedExactly {α : Type} (l : List α) (indices : List Nat) : List α :=
  keepIdxFrom (fun n => decide (n ∉ indices)) 0 l

/-! ### Migration (`MediaCache::migrate_v0`)

The filesystem and the external collaborators (`base32::decode`,
`String::from_utf8`, `create_dir_all`, `fs::rename`) are modeled by an
environment of deterministic outcome functions; `migrate_v0`'s own control
flow is embedded exactly. -/

/-- Cache directory contents: the direct regular files (filename, file id)
and the files under subdirectories (relative `/`-joined path, file id).
`read_dir` lists only the direct children; subdirectory entries fail the
`is_file` check and are skipped, so they are not tracked here. -/
structure FsState where
  rootFiles : List (String × Nat)
  nested : List (String × Nat)
deriving DecidableEq

/-- One entry yielded by the `read_dir` iterator. -/
inductive DirEntry
  | err
  | dir (name : String)
  | file (name : String) (fid : Nat)
deriving DecidableEq

/-- Deterministic outcomes of the external collaborators used by
`migrate_v0`. -/
structure MigrateEnv where
  b32decode : String → Option (List Nat)
  utf8Ok : List Nat → Bool
  mkdirOk : Path → Bool
  renameOk : String → String → Bool

/-- Embeds `base32::decode(Crockford, name).and_then(|s| String::from_utf8(s).ok())`. -/
def decodeUrl (env : MigrateEnv) (name : String) : Option (List Nat) :=
  match env.b32decode name with
  | some bs => if env.utf8Ok bs then some bs else none
  | none => none

inductive MigErr
  | readDir
  | createDir
deriving DecidableEq

/-- Embeds `fs::rename(root/name, root/dst)`: the source leaves the root listing,
the destination (a nested sharded path) is overwritten if present. -/
def renameFile (s : FsState) (name : String) (dst : String) (fid : Nat) : FsState :=
  { rootFiles := s.rootFiles.filter (fun e => e.1 != name)
    nested := s.nested.filter (fun e => e.1 != dst) ++ [(dst, fid)] }

/-- The body of `migrate_v0`'s loop for one directory entry.  `Err` entries
and non-files are skipped; an undecodable filename is logged and skipped; a
`create_dir_all` failure propagates out through `?`; a rename failure is
logged and skipped. -/
def processEntry (env : MigrateEnv) (s : FsState) : DirEntry → FsState × Except MigErr Unit
  | .err => (s, .ok ())
  | .dir _ => (s, .ok ())
  | .file name fid =>
    match decodeUrl env name with
    | none => (s, .ok ())
    | some url =>
      if env.mkdirOk (MediaCache.keySegs url).dropLast then
        if env.renameOk name (MediaCache.key url) then
          (renameFile s name (MediaCache.key url) fid, .ok ())
        else (s, .ok ())
      else (s, .error .createDir)

/-- Embeds `migrate_v0`'s loop over the directory listing. -/
def migrateGo (env : MigrateEnv) : List DirEntry → FsState → FsState × Except MigErr Unit
  | [], s => (s, .ok ())
  | e :: es, s =>
    match processEntry env s e with
    | (s', .ok _) => migrateGo env es s'
    | (s', .error x) => (s', .error x)

/-- Embeds `MediaCache::migrate_v0`: `read_dir` either fails at the top level
(propagated) or yields a listing that is processed entry by entry. -/
def migrate_v0 (env : MigrateEnv) (listing : Except Unit (List DirEntry)) (s : FsState) :
    FsState × Except MigErr Unit :=
  match listing with
  | .error _ => (s, .error .readDir)
  | .ok es => migrateGo env es s

/-- The `read_dir` listing induced by a cache-directory state (the `Err`
and subdirectory entries that the loop provably skips are omitted). -/
def listingOf (s : FsState) : List DirEntry :=
  s.rootFiles.map (fun e => .file e.1 e.2)

/-- Running `migrate_v0` on a directory state whose enumeration succeeds. -/
def migrateOnState (env : MigrateEnv) (s : FsState) : FsState × Except MigErr Unit :=
  migrateGo env (listingOf s) s

/-! ### Disk writes (`MediaCache::write`, `MediaCache::create_file`,
`MediaCache::write_gif`) -/

inductive WriteError
  | io (code : Nat)
  | codec (code : Nat)
deriving DecidableEq

/-- Deterministic outcomes of `create_dir_all` and `File::open` per path
(`none` = success, `some code` = the I/O error). -/
structure FsEnv where
  mkdirResult : Path → Option Nat
  openResult : Path → Option Nat

/-- Embeds `egui::Color32`. -/
structure Color32 where
  r : Nat
  g : Nat
  b : Nat
  a : Nat
deriving DecidableEq

def Color32.toArray (c : Color32) : List Nat := [c.r, c.g, c.b, c.a]

/-- Embeds `egui::ColorImage { size, pixels }`. -/
structure ColorImage where
  size : Nat × Nat
  pixels : List Color32
deriving DecidableEq

/-- Embeds `ColorImage::as_raw`: the RGBA8 bytes. -/
def ColorImage.asRaw (ci : ColorImage) : List Nat :=
  ci.pixels.flatMap Color32.toArray

/-- Embeds `MediaCache::create_file`: join the key onto the cache dir, create the
parent directories, open/create/truncate the file (returned as its path). -/
def MediaCache.create_file (env : FsEnv) (cache_dir : Path) (url : List Nat) :
    Except WriteError Path :=
  let file_path := cache_dir ++ MediaCache.keySegs url
  match env.mkdirResult file_path.dropLast with
  | some code => .error (.io code)
  | none =>
    match env.openResult file_path with
    | some code => .error (.io code)
    | none => .ok file_path

/-- Embeds `MediaCache::write`: create the file, then WebP-lossless-encode the
buffer; `encodeResult raw w h` is the codec's outcome on
`(data.as_raw(), size[0], size[1])`. -/
def MediaCache.write (env : FsEnv) (encodeResult : List Nat → Nat → Nat → Option Nat)
    (cache_dir : Path) (url : List Nat) (data : ColorImage) : Except WriteError Unit :=
  match MediaCache.create_file env cache_dir url with
  | .error e => .error e
  | .ok _ =>
    match encodeResult data.asRaw data.size.1 data.size.2 with
    | some code => .error (.codec code)
    | none => .ok ()

/-- Embeds `ImageFrame { delay, image }`. -/
structure ImageFrame where
  delay : Nat
  image : ColorImage
deriving DecidableEq

/-- Embeds `image::Frame::from_parts(buf, 0, 0, delay)`. -/
structure GifFrame where
  buffer : List Nat
  delay : Nat
deriving DecidableEq

/-- Embeds `color_image_to_rgba`: flatten `Color32`s to RGBA bytes;
`RgbaImage::from_raw(w, h, raw)` yields `None` (and the `.expect` panics,
modeled as `none`) when the buffer is smaller than `w * h * 4`. -/
def color_image_to_rgba (ci : ColorImage) : Option (List Nat) :=
  let raw := ci.pixels.flatMap Color32.toArray
  if ci.size.1 * ci.size.2 * 4 ≤ raw.length then some raw else none

/-- Embeds `write_gif`'s frame loop: convert each frame in order; an
`encode_frame` failure is logged and the frame skipped; the result is the
sequence of frames actually written to the file.  `none` models the
conversion panic. -/
def writeGifFrames (encodeFrameErr : GifFrame → Option Nat) :
    List ImageFrame → Option (List GifFrame)
  | [] => some []
  | img :: rest =>
    match color_image_to_rgba img.image with
    | none => none
    | some buf =>
      let frame : GifFrame := ⟨buf, img.delay⟩
      let encoded := match encodeFrameErr frame with
        | some _ => []
        | none => [frame]
      match writeGifFrames encodeFrameErr rest with
      | none => none
      | some tail => some (encoded ++ tail)

/-- Embeds `MediaCache::write_gif`: create the file then encode the frames; the
value is `(frames written, returned Result)`, `none` modeling a panic. -/
def MediaCache.write_gif (env : FsEnv) (encodeFrameErr : GifFrame → Option Nat)
    (cache_dir : Path) (url : List Nat) (data : List ImageFrame) :
    Option (List GifFrame × Except WriteError Unit) :=
  match MediaCache.create_file env cache_dir url with
  | .error e => some ([], .error e)
  | .ok _ =>
    match writeGifFrames encodeFrameErr data with
    | none => none
    | some frames => some (frames, .ok ())

/-! ### Spec-side predicates about migration entries -/

/-- A filename on which `migrate_v0`'s loop body provably leaves the
directory unchanged and continues: it fails to decode, or it decodes but
the deterministic rename outcome is failure. -/
def migrationInert (env : MigrateEnv) (name : String) : Prop :=
  decodeUrl env name = none ∨
    ∃ url, decodeUrl env name = some url ∧
      env.mkdirOk (MediaCache.keySegs url).dropLast = true ∧
      env.renameOk name (MediaCache.key url) = false

/-- A filename on which `migrate_v0`'s loop body aborts (leaving the
directory unchanged): it decodes but `create_dir_all` fails. -/
def migrationAborts (env : MigrateEnv) (name : String) : Prop :=
  ∃ url, decodeUrl env name = some url ∧
    env.mkdirOk (MediaCache.keySegs url).dropLast = false

/-- Root listings on which a run of the loop provably does not move any
file: an inert prefix, optionally cut short by an aborting entry. -/
def inertThenAbort (env : MigrateEnv) (files : List (String × Nat)) : Prop :=
  ∃ q t, files = q ++ t ∧ (∀ e ∈ q, migrationInert env e.1) ∧
    (t = [] ∨ ∃ (k : String) (kid : Nat) (t' : List (String × Nat)),
      t = (k, kid) :: t' ∧ migrationAborts env k)

/-- The `image::Frame` that `write_gif` builds from one `ImageFrame`. -/
def gifFrameOf (f : ImageFrame) : GifFrame :=
  ⟨f.image.asRaw, f.delay⟩

/-! ## Theorems -/

theorem length_encodeHex (bs : List Nat) : (encodeHex bs).length = 2 * bs.length := by
  induction bs with
  | nil => rfl
  | cons b bs ih =>
    simp only [encodeHex, List.flatMap_cons, List.length_append, List.length_cons,
      List.length_nil] at ih ⊢
    omega

theorem sha256_length (msg : List Nat) : (sha256 msg).length = 32 := by
  simp [sha256, wordBytes]

theorem hexChar_mem (n : Nat) : hexChar n ∈ hexDigits := by
  by_cases h : n < 16
  · interval_cases n <;> decide
  · unfold hexChar
    rw [List.getD_eq_default _ _ (show hexDigits.length ≤ n by
      have h16 : hexDigits.length = 16 := rfl
      omega)]
    decide

theorem encodeHex_cons (b : Nat) (bs : List Nat) :
    encodeHex (b :: bs) = hexChar (b / 16) :: hexChar (b % 16) :: encodeHex bs := rfl

theorem mem_encodeHex (bs : List Nat) (c : Char) (hc : c ∈ encodeHex bs) : c ∈ hexDigits := by
  induction bs with
  | nil => simp [encodeHex] at hc
  | cons b bs ih =>
    rw [encodeHex_cons, List.mem_cons, List.mem_cons] at hc
    rcases hc with h | h | h
    · exact h ▸ hexChar_mem _
    · exact h ▸ hexChar_mem _
    · exact ih h

/-- Claim C1: `MediaCache::key` is deterministic (it is a pure function of the
URL bytes, so repeated calls agree), and its output is the 64-character
lowercase-hex SHA-256 digest of the URL bytes arranged as the relative path
`{first 2 hex chars}/{next 2 hex chars}/{full 64-char digest}`. -/
theorem key_is_sha256_hex_sharded_path (url : List Nat) :
    MediaCache.key url = MediaCache.key url ∧
    (keyDigest url).length = 64 ∧
    (keyDigest url).all (fun c => hexDigits.contains c) = true ∧
    MediaCache.key url =
      String.mk ((keyDigest url).take 2) ++ "/" ++
        String.mk (((keyDigest url).drop 2).take 2) ++ "/" ++ String.mk (keyDigest url) := by
  refine ⟨rfl, ?_, ?_, ?_⟩
  · rw [keyDigest, length_encodeHex, sha256_length]
  · rw [List.all_eq_true]
    intro c hc
    simpa using mem_encodeHex _ _ hc
  · simp [MediaCache.key, MediaCache.keySegs, String.intercalate, String.intercalate.go,
      String.append_assoc]

/-- Claim C7: `Images::new(p)` roots the still-image cache at `p/img` and the
animation cache at `p/gif`, which are distinct directories. -/
theorem images_new_separate_roots (p : Path) :
    (Images.new p).static_imgs.cache_dir = p ++ ["img"] ∧
    (Images.new p).gifs.cache_dir = p ++ ["gif"] ∧
    (Images.new p).static_imgs.cache_dir ≠ (Images.new p).gifs.cache_dir := by
  refine ⟨rfl, rfl, ?_⟩
  intro h
  have := List.append_cancel_left (show p ++ ["img"] = p ++ ["gif"] from h)
  simp at this

/-- Claim C8: `Animation::num_frames` is one more than the length of
`other_frames` (hence at least 1), and `Animation::get_frame` is total:
`some first_frame` at 0, `some other_frames[i-1]` for `1 ≤ i < num_frames`,
and `none` (not a failure) for `i ≥ num_frames`. -/
theorem animation_get_frame_total (a : Animation) (i : Nat) :
    a.num_frames = a.other_frames.length + 1 ∧
    1 ≤ a.num_frames ∧
    a.get_frame 0 = some a.first_frame ∧
    (1 ≤ i → i < a.num_frames →
      ∃ h : i - 1 < a.other_frames.length,
        a.get_frame i = some (a.other_frames.get ⟨i - 1, h⟩)) ∧
    (a.num_frames ≤ i → a.get_frame i = none) := by
  refine ⟨rfl, by simp [Animation.num_frames], by simp [Animation.get_frame], ?_, ?_⟩
  · intro h1 h2
    simp only [Animation.num_frames] at h2
    have hb : i - 1 < a.other_frames.length := by omega
    refine ⟨hb, ?_⟩
    simp [Animation.get_frame, show i ≠ 0 by omega, List.getElem?_eq_getElem hb]
  · intro h
    simp only [Animation.num_frames] at h
    simp [Animation.get_frame, show i ≠ 0 by omega,
      List.getElem?_eq_none (show a.other_frames.length ≤ i - 1 by omega)]

theorem animation_get_frame_total_witness :
    (Animation.mk ⟨10, 1⟩ [⟨20, 2⟩] none).get_frame 1 = some ⟨20, 2⟩ ∧
    (Animation.mk ⟨10, 1⟩ [⟨20, 2⟩] none).get_frame 2 = none := by
  constructor
  · obtain ⟨hb, he⟩ :=
      (animation_get_frame_total (Animation.mk ⟨10, 1⟩ [⟨20, 2⟩] none) 1).2.2.2.1
        (by decide) (by decide)
    simpa using he
  · exact (animation_get_frame_total (Animation.mk ⟨10, 1⟩ [⟨20, 2⟩] none) 2).2.2.2.2 (by decide)

/-- Claim C10: `RelayPoolManager::remove_relay(i)` is a no-op for any index
at or past the end of the relay list, and for an in-range index removes
exactly the relay at position `i`, keeping everything before and after. -/
theorem remove_relay_bounds_checked (pool : RelayPool) (i : Nat) :
    (pool.relays.length ≤ i → RelayPoolManager.remove_relay pool i = pool) ∧
    (i < pool.relays.length →
      (RelayPoolManager.remove_relay pool i).relays =
        pool.relays.take i ++ pool.relays.drop (i + 1)) := by
  constructor
  · intro h
    simp [RelayPoolManager.remove_relay, Nat.not_lt.mpr h]
  · intro h
    simp [RelayPoolManager.remove_relay, h, List.eraseIdx_eq_take_drop_succ]

theorem remove_relay_bounds_checked_witness :
    RelayPoolManager.remove_relay ⟨[⟨"a", 0⟩, ⟨"b", 1⟩]⟩ 5 = ⟨[⟨"a", 0⟩, ⟨"b", 1⟩]⟩ ∧
    (RelayPoolManager.remove_relay ⟨[⟨"a", 0⟩, ⟨"b", 1⟩]⟩ 0).relays = [⟨"b", 1⟩] := by
  constructor
  · exact (remove_relay_bounds_checked ⟨[⟨"a", 0⟩, ⟨"b", 1⟩]⟩ 5).1 (by decide)
  · have h := (remove_relay_bounds_checked ⟨[⟨"a", 0⟩, ⟨"b", 1⟩]⟩ 0).2 (by decide)
    simpa using h

/-! ### Indexed filtering lemmas, for C9 -/

theorem keepIdxFrom_append {α : Type} (p : Nat → Bool) (A B : List α) :
    ∀ n, keepIdxFrom p n (A ++ B) = keepIdxFrom p n A ++ keepIdxFrom p (n + A.length) B := by
  induction A with
  | nil => intro n; simp [keepIdxFrom]
  | cons a A ih =>
    intro n
    have hn : n + 1 + A.length = n + (A.length + 1) := by omega
    by_cases h : p n <;> simp [keepIdxFrom, h, ih (n + 1), hn]

theorem keepIdxFrom_of_true {α : Type} (p : Nat → Bool) (B : List α) :
    ∀ n, (∀ k, n ≤ k → p k = true) → keepIdxFrom p n B = B := by
  induction B with
  | nil => intro n _; rfl
  | cons b B ih =>
    intro n h
    simp [keepIdxFrom, h n le_rfl, ih (n + 1) (fun k hk => h k (by omega))]

theorem keepIdxFrom_congr {α : Type} (p q : Nat → Bool) (l : List α) :
    ∀ n, (∀ k, n ≤ k → k < n + l.length → p k = q k) →
      keepIdxFrom p n l = keepIdxFrom q n l := by
  induction l with
  | nil => intro n _; rfl
  | cons a l ih =>
    intro n h
    have h0 : p n = q n := h n le_rfl (by simp only [List.length_cons]; omega)
    have hrec := ih (n + 1) (fun k hk1 hk2 => h k (by omega)
      (by simp only [List.length_cons]; omega))
    simp only [keepIdxFrom, h0, hrec]

theorem keepIdxFrom_map {α β : Type} (f : α → β) (p : Nat → Bool) (l : List α) :
    ∀ n, keepIdxFrom p n (l.map f) = (keepIdxFrom p n l).map f := by
  induction l with
  | nil => intro n; rfl
  | cons a l ih =>
    intro n
    by_cases h : p n <;> simp [keepIdxFrom, h, ih (n + 1)]

theorem keepIdxFrom_eraseIdx {α : Type} (l : List α) (j : Nat) (S : List Nat)
    (hj : j < l.length) (hS : ∀ i ∈ S, i < j) :
    keepIdxFrom (fun n => decide (n ∉ S)) 0 (l.eraseIdx j) =
      keepIdxFrom (fun n => decide (n ∉ j :: S)) 0 l := by
  have hlen : (l.take j).length = j := by rw [List.length_take]; omega
  rw [List.eraseIdx_eq_take_drop_succ, keepIdxFrom_append, hlen]
  conv_rhs => rw [← List.take_append_drop j l, List.drop_eq_getElem_cons hj,
    keepIdxFrom_append, hlen]
  have h1 : keepIdxFrom (fun n => decide (n ∉ S)) (0 + j) (l.drop (j + 1)) =
      l.drop (j + 1) :=
    keepIdxFrom_of_true _ _ _ (fun k hk => by
      have hk2 : k ∉ S := fun hmem => absurd (hS k hmem) (by omega)
      simpa using hk2)
  have h2 : keepIdxFrom (fun n => decide (n ∉ j :: S)) (0 + j)
      (l[j] :: l.drop (j + 1)) = l.drop (j + 1) := by
    simp only [keepIdxFrom]
    rw [if_neg (by simp)]
    exact keepIdxFrom_of_true _ _ _ (fun k hk => by
      have hkj : k ≠ j := by omega
      have hk2 : k ∉ S := fun hmem => absurd (hS k hmem) (by omega)
      simp [hkj, hk2])
  have h3 : keepIdxFrom (fun n => decide (n ∉ j :: S)) 0 (l.take j) =
      keepIdxFrom (fun n => decide (n ∉ S)) 0 (l.take j) :=
    keepIdxFrom_congr _ _ _ 0 (fun k _ hk2 => by
      have hkj : k ≠ j := by rw [hlen] at hk2; omega
      simp [hkj])
  rw [h1, h2, h3]

theorem foldl_remove_relay_sorted (is : List Nat) :
    ∀ pool : RelayPool, is.Sorted (· > ·) → (∀ i ∈ is, i < pool.relays.length) →
      (is.foldl RelayPoolManager.remove_relay pool).relays =
        keepIdxFrom (fun n => decide (n ∉ is)) 0 pool.relays := by
  induction is with
  | nil =>
    intro pool _ _
    rw [List.foldl_nil]
    exact (keepIdxFrom_of_true _ _ 0 (fun k _ => by simp)).symm
  | cons j rest ih =>
    intro pool hs hlt
    have hj : j < pool.relays.length := hlt j (List.mem_cons_self j rest)
    have hrest_lt : ∀ i ∈ rest, i < j := fun i hi => (List.pairwise_cons.mp hs).1 i hi
    have hsorted : rest.Sorted (· > ·) := (List.pairwise_cons.mp hs).2
    rw [List.foldl_cons]
    have hrem : RelayPoolManager.remove_relay pool j = ⟨pool.relays.eraseIdx j⟩ := by
      simp [RelayPoolManager.remove_relay, hj]
    rw [hrem]
    have hbounds : ∀ i ∈ rest,
        i < (RelayPool.mk (pool.relays.eraseIdx j)).relays.length := by
      intro i hi
      have h1 := hrest_lt i hi
      simp only [List.length_eraseIdx, if_pos hj]
      omega
    rw [ih ⟨pool.relays.eraseIdx j⟩ hsorted hbounds]
    exact keepIdxFrom_eraseIdx _ j rest hj hrest_lt

/-- The sorted-descending removal loop hits exactly the listed positions. -/
theorem remove_relays_spec_aux (pool : RelayPool) (is : List Nat)
    (hnd : is.Nodup) (hlt : ∀ i ∈ is, i < pool.relays.length) :
    (RelayPoolManager.remove_relays pool is).relays = removedExactly pool.relays is := by
  have hperm : (RelayPoolManager.sortDesc is).Perm is := List.mergeSort_perm is _
  have hpw : (RelayPoolManager.sortDesc is).Pairwise (fun a b => b ≤ a) := by
    have h := @List.sorted_mergeSort Nat (fun a b : Nat => decide (b ≤ a))
      (fun a b c hab hbc => by simp_all; omega)
      (fun a b => by simp; omega) is
    simpa [RelayPoolManager.sortDesc] using h
  have hnd' : (RelayPoolManager.sortDesc is).Nodup := hperm.symm.nodup hnd
  have hne : (RelayPoolManager.sortDesc is).Pairwise (· ≠ ·) := hnd'
  have hsorted : (RelayPoolManager.sortDesc is).Sorted (· > ·) :=
    (hpw.and hne).imp (fun h => lt_of_le_of_ne h.1 (Ne.symm h.2))
  have hlt' : ∀ i ∈ RelayPoolManager.sortDesc is, i < pool.relays.length :=
    fun i hi => hlt i (hperm.mem_iff.mp hi)
  rw [RelayPoolManager.remove_relays, foldl_remove_relay_sorted _ _ hsorted hlt']
  exact keepIdxFrom_congr _ _ _ 0 (fun k _ _ => by simp [hperm.mem_iff])

/-- Claim C9: for distinct in-range indices, `RelayPoolManager::remove_relays`
removes exactly the relays occupying those positions of the original list
(equivalently of `get_relay_infos`'s list), and the result does not depend
on the order the indices were supplied in. -/
theorem remove_relays_exact_positions_order_independent (pool : RelayPool)
    (indices : List Nat) (hnd : indices.Nodup)
    (hlt : ∀ i ∈ indices, i < pool.relays.length) :
    (RelayPoolManager.remove_relays pool indices).relays =
      removedExactly pool.relays indices ∧
    RelayPoolManager.get_relay_infos (RelayPoolManager.remove_relays pool indices) =
      removedExactly (RelayPoolManager.get_relay_infos pool) indices ∧
    ∀ indices2, indices2.Perm indices →
      RelayPoolManager.remove_relays pool indices2 =
        RelayPoolManager.remove_relays pool indices := by
  refine ⟨remove_relays_spec_aux pool indices hnd hlt, ?_, ?_⟩
  · show (RelayPoolManager.remove_relays pool indices).relays.map _ = _
    rw [remove_relays_spec_aux pool indices hnd hlt, removedExactly, removedExactly,
      RelayPoolManager.get_relay_infos, keepIdxFrom_map]
  · intro is2 hp
    have h2 := remove_relays_spec_aux pool is2 (hp.symm.nodup hnd)
      (fun i hi => hlt i (hp.mem_iff.mp hi))
    have h1 := remove_relays_spec_aux pool indices hnd hlt
    have hcongr : removedExactly pool.relays is2 = removedExactly pool.relays indices :=
      keepIdxFrom_congr _ _ _ 0 (fun k _ _ => by simp [hp.mem_iff])
    calc RelayPoolManager.remove_relays pool is2
        = ⟨(RelayPoolManager.remove_relays pool is2).relays⟩ := rfl
      _ = ⟨(RelayPoolManager.remove_relays pool indices).relays⟩ := by
            rw [h2, hcongr, ← h1]
      _ = RelayPoolManager.remove_relays pool indices := rfl

theorem remove_relays_exact_positions_order_independent_witness :
    (RelayPoolManager.remove_relays ⟨[⟨"a", 0⟩, ⟨"b", 1⟩, ⟨"c", 2⟩]⟩ [2, 0]).relays =
      [⟨"b", 1⟩] ∧
    RelayPoolManager.remove_relays ⟨[⟨"a", 0⟩, ⟨"b", 1⟩, ⟨"c", 2⟩]⟩ [0, 2] =
      RelayPoolManager.remove_relays ⟨[⟨"a", 0⟩, ⟨"b", 1⟩, ⟨"c", 2⟩]⟩ [2, 0] := by
  have h := remove_relays_exact_positions_order_independent
    ⟨[⟨"a", 0⟩, ⟨"b", 1⟩, ⟨"c", 2⟩]⟩ [2, 0] (by decide) (by decide)
  refine ⟨?_, h.2.2 [0, 2] (by decide)⟩
  rw [h.1]
  decide

/-! ### Disk-write claims (C6, C3) -/

/-- Claim C6: `MediaCache::write` derives the key, creates the parent
directories, opens the target file and losslessly encodes the buffer; it
returns an I/O error exactly when directory creation or file open fails,
and a codec error exactly when the encoder fails on
`(data.as_raw(), width, height)`. -/
theorem write_error_classification (env : FsEnv)
    (encodeResult : List Nat → Nat → Nat → Option Nat) (cache_dir : Path)
    (url : List Nat) (data : ColorImage) :
    (env.mkdirResult (cache_dir ++ MediaCache.keySegs url).dropLast = none →
      env.openResult (cache_dir ++ MediaCache.keySegs url) = none →
      encodeResult data.asRaw data.size.1 data.size.2 = none →
      MediaCache.write env encodeResult cache_dir url data = .ok ()) ∧
    (∀ c, env.mkdirResult (cache_dir ++ MediaCache.keySegs url).dropLast = some c →
      MediaCache.write env encodeResult cache_dir url data = .error (.io c)) ∧
    (∀ c, env.mkdirResult (cache_dir ++ MediaCache.keySegs url).dropLast = none →
      env.openResult (cache_dir ++ MediaCache.keySegs url) = some c →
      MediaCache.write env encodeResult cache_dir url data = .error (.io c)) ∧
    (∀ c, env.mkdirResult (cache_dir ++ MediaCache.keySegs url).dropLast = none →
      env.openResult (cache_dir ++ MediaCache.keySegs url) = none →
      encodeResult data.asRaw data.size.1 data.size.2 = some c →
      MediaCache.write env encodeResult cache_dir url data = .error (.codec c)) := by
  refine ⟨?_, ?_, ?_, ?_⟩
  · intro h1 h2 h3
    simp [MediaCache.write, MediaCache.create_file, h1, h2, h3]
  · intro c h1
    simp [MediaCache.write, MediaCache.create_file, h1]
  · intro c h1 h2
    simp [MediaCache.write, MediaCache.create_file, h1, h2]
  · intro c h1 h2 h3
    simp [MediaCache.write, MediaCache.create_file, h1, h2, h3]

theorem write_error_classification_witness :
    MediaCache.write ⟨fun _ => none, fun _ => none⟩ (fun _ _ _ => none) ["cache"] [104]
      ⟨(1, 1), [⟨0, 0, 0, 0⟩]⟩ = .ok () ∧
    MediaCache.write ⟨fun _ => some 3, fun _ => none⟩ (fun _ _ _ => none) ["cache"] [104]
      ⟨(1, 1), [⟨0, 0, 0, 0⟩]⟩ = .error (.io 3) :=
  ⟨(write_error_classification _ _ _ _ _).1 rfl rfl rfl,
   (write_error_classification _ _ _ _ _).2.1 3 rfl⟩

theorem writeGifFrames_eq (encErr : GifFrame → Option Nat) (data : List ImageFrame)
    (hwf : ∀ f ∈ data, f.image.size.1 * f.image.size.2 * 4 ≤ f.image.asRaw.length) :
    writeGifFrames encErr data =
      some ((data.map gifFrameOf).filter (fun g => (encErr g).isNone)) := by
  induction data with
  | nil => rfl
  | cons f fs ih =>
    have hconv : color_image_to_rgba f.image = some f.image.asRaw := by
      have hf := hwf f (List.mem_cons_self f fs)
      simp only [ColorImage.asRaw] at hf
      simp only [color_image_to_rgba]
      rw [if_pos hf]
      rfl
    have ihh := ih (fun g hg => hwf g (List.mem_cons_of_mem f hg))
    simp only [writeGifFrames, hconv, ihh, List.map_cons, List.filter_cons, gifFrameOf]
    cases henc : encErr ⟨f.image.asRaw, f.delay⟩ <;> simp [henc]

/-- Claim C3: `MediaCache::write_gif` encodes the frames in their input
order, a per-frame encode failure only drops that frame (the rest are
still written, in order) and the function still returns `Ok`; the only
error it returns is the initial file-creation I/O failure. -/
theorem write_gif_frame_errors_contained (env : FsEnv) (encErr : GifFrame → Option Nat)
    (cache_dir : Path) (url : List Nat) (data : List ImageFrame)
    (hwf : ∀ f ∈ data, f.image.size.1 * f.image.size.2 * 4 ≤ f.image.asRaw.length) :
    (env.mkdirResult (cache_dir ++ MediaCache.keySegs url).dropLast = none →
      env.openResult (cache_dir ++ MediaCache.keySegs url) = none →
      MediaCache.write_gif env encErr cache_dir url data =
        some ((data.map gifFrameOf).filter (fun g => (encErr g).isNone), .ok ())) ∧
    (∀ c, env.mkdirResult (cache_dir ++ MediaCache.keySegs url).dropLast = some c →
      MediaCache.write_gif env encErr cache_dir url data = some ([], .error (.io c))) ∧
    (∀ c, env.mkdirResult (cache_dir ++ MediaCache.keySegs url).dropLast = none →
      env.openResult (cache_dir ++ MediaCache.keySegs url) = some c →
      MediaCache.write_gif env encErr cache_dir url data = some ([], .error (.io c))) := by
  refine ⟨?_, ?_, ?_⟩
  · intro h1 h2
    simp [MediaCache.write_gif, MediaCache.create_file, h1, h2,
      writeGifFrames_eq encErr data hwf]
  · intro c h1
    simp [MediaCache.write_gif, MediaCache.create_file, h1]
  · intro c h1 h2
    simp [MediaCache.write_gif, MediaCache.create_file, h1, h2]

theorem write_gif_frame_errors_contained_witness :
    MediaCache.write_gif ⟨fun _ => none, fun _ => none⟩
      (fun g => if g.delay = 99 then some 7 else none) ["cache"] [104]
      [⟨99, ⟨(1, 1), [⟨1, 2, 3, 4⟩]⟩⟩, ⟨5, ⟨(1, 1), [⟨1, 2, 3, 4⟩]⟩⟩] =
      some ([⟨[1, 2, 3, 4], 5⟩], .ok ()) := by
  have h := (write_gif_frame_errors_contained ⟨fun _ => none, fun _ => none⟩
    (fun g => if g.delay = 99 then some 7 else none) ["cache"] [104]
    [⟨99, ⟨(1, 1), [⟨1, 2, 3, 4⟩]⟩⟩, ⟨5, ⟨(1, 1), [⟨1, 2, 3, 4⟩]⟩⟩]
    (by decide)).1 rfl rfl
  rw [h]
  rfl

/-! ### Migration claims (C2, C4, C5) -/

theorem processEntry_inert (env : MigrateEnv) (s : FsState) (name : String) (fid : Nat)
    (h : migrationInert env name) :
    processEntry env s (.file name fid) = (s, .ok ()) := by
  rcases h with hdec | ⟨url, hdec, hmk, hrn⟩
  · simp [processEntry, hdec]
  · simp [processEntry, hdec, hmk, hrn]

theorem migrateGo_skips_inert (env : MigrateEnv) :
    ∀ (q : List (String × Nat)) (rest : List DirEntry) (s : FsState),
      (∀ e ∈ q, migrationInert env e.1) →
      migrateGo env (q.map (fun e => DirEntry.file e.1 e.2) ++ rest) s =
        migrateGo env rest s := by
  intro q
  induction q with
  | nil => intro rest s _; rfl
  | cons e q ih =>
    intro rest s hq
    have hstep : processEntry env s (.file e.1 e.2) = (s, .ok ()) :=
      processEntry_inert env s e.1 e.2 (hq e (List.mem_cons_self e q))
    simp only [List.map_cons, List.cons_append, migrateGo, hstep]
    exact ih rest s (fun x hx => hq x (List.mem_cons_of_mem e hx))

theorem migrateGo_abort_head (env : MigrateEnv) (k : String) (kid : Nat)
    (rest : List DirEntry) (s : FsState) (hab : migrationAborts env k) :
    migrateGo env (.file k kid :: rest) s = (s, .error .createDir) := by
  obtain ⟨url, hdec, hmk⟩ := hab
  simp [migrateGo, processEntry, hdec, hmk]

/-- A run of the loop over a listing in inert-then-abort shape does not
change the directory state. -/
theorem migrateGo_no_move (env : MigrateEnv) (files : List (String × Nat)) (s : FsState)
    (h : inertThenAbort env files) :
    (migrateGo env (files.map (fun e => DirEntry.file e.1 e.2)) s).1 = s := by
  obtain ⟨q, t, rfl, hq, ht⟩ := h
  rw [List.map_append, migrateGo_skips_inert env q _ s hq]
  rcases ht with rfl | ⟨k, kid, t', rfl, hab⟩
  · rfl
  · rw [List.map_cons, migrateGo_abort_head env k kid _ s hab]

theorem filter_out_unique_name (kept pending : List (String × Nat)) (name : String)
    (fid : Nat) (hnd : ((kept ++ (name, fid) :: pending).map Prod.fst).Nodup) :
    (kept ++ (name, fid) :: pending).filter (fun e => e.1 != name) = kept ++ pending := by
  simp only [List.map_append, List.map_cons] at hnd
  obtain ⟨hnd1, hnd2, hdisj⟩ := List.nodup_append.mp hnd
  have hk : ∀ e ∈ kept, e.1 ≠ name := by
    intro e he heq
    exact hdisj (List.mem_map_of_mem Prod.fst he) (heq ▸ List.mem_cons_self _ _)
  have hp : ∀ e ∈ pending, e.1 ≠ name := by
    intro e he heq
    have := (List.nodup_cons.mp hnd2).1
    exact this (heq ▸ List.mem_map_of_mem Prod.fst he)
  rw [List.filter_append, List.filter_cons]
  rw [if_neg (by simp)]
  rw [List.filter_eq_self.mpr (fun e he => by simp [hk e he]),
    List.filter_eq_self.mpr (fun e he => by simp [hp e he])]

/-- After a full (possibly aborted) run of `migrate_v0`'s loop, the files
left directly under the cache root form an inert-then-abort listing: every
file the next run will reach is one this run provably could not move. -/
theorem migrateGo_output_shape (env : MigrateEnv) :
    ∀ (pending kept : List (String × Nat)) (s : FsState),
      s.rootFiles = kept ++ pending →
      (s.rootFiles.map Prod.fst).Nodup →
      (∀ e ∈ kept, migrationInert env e.1) →
      inertThenAbort env
        ((migrateGo env (pending.map (fun e => DirEntry.file e.1 e.2)) s).1.rootFiles) := by
  intro pending
  induction pending with
  | nil =>
    intro kept s hsplit hnd hkept
    simp only [List.map_nil, migrateGo]
    exact ⟨kept, [], hsplit, hkept, Or.inl rfl⟩
  | cons e pending ih =>
    intro kept s hsplit hnd hkept
    obtain ⟨name, fid⟩ := e
    cases hdec : decodeUrl env name with
    | none =>
      have hstep : processEntry env s (.file name fid) = (s, .ok ()) := by
        simp [processEntry, hdec]
      simp only [List.map_cons, migrateGo, hstep]
      refine ih (kept ++ [(name, fid)]) s (by rw [hsplit]; simp) hnd ?_
      intro x hx
      rcases List.mem_append.mp hx with hx | hx
      · exact hkept x hx
      · rw [List.mem_singleton.mp hx]
        exact Or.inl hdec
    | some url =>
      cases hmk : env.mkdirOk (MediaCache.keySegs url).dropLast with
      | false =>
        rw [List.map_cons, migrateGo_abort_head env name fid _ s ⟨url, hdec, hmk⟩]
        exact ⟨kept, (name, fid) :: pending, hsplit, hkept,
          Or.inr ⟨name, fid, pending, rfl, url, hdec, hmk⟩⟩
      | true =>
        cases hrn : env.renameOk name (MediaCache.key url) with
        | false =>
          have hstep : processEntry env s (.file name fid) = (s, .ok ()) := by
            simp [processEntry, hdec, hmk, hrn]
          simp only [List.map_cons, migrateGo, hstep]
          refine ih (kept ++ [(name, fid)]) s (by rw [hsplit]; simp) hnd ?_
          intro x hx
          rcases List.mem_append.mp hx with hx | hx
          · exact hkept x hx
          · rw [List.mem_singleton.mp hx]
            exact Or.inr ⟨url, hdec, hmk, hrn⟩
        | true =>
          have hstep : processEntry env s (.file name fid) =
              (renameFile s name (MediaCache.key url) fid, .ok ()) := by
            simp [processEntry, hdec, hmk, hrn]
          simp only [List.map_cons, migrateGo, hstep]
          have hroot' : (renameFile s name (MediaCache.key url) fid).rootFiles =
              kept ++ pending := by
            simp only [renameFile]
            rw [hsplit]
            exact filter_out_unique_name kept pending name fid (hsplit ▸ hnd)
          refine ih kept (renameFile s name (MediaCache.key url) fid) hroot' ?_ hkept
          rw [hroot']
          have hsub : ((kept ++ pending).map Prod.fst).Sublist
              (((kept ++ (name, fid) :: pending).map Prod.fst)) := by
            simp only [List.map_append, List.map_cons]
            exact (List.Sublist.refl _).append (List.sublist_cons_self _ _)
          exact List.Nodup.sublist hsub (hsplit ▸ hnd)

/-- Claim C5: `migrate_v0` is idempotent on the directory state: a second
run over the first run's output changes nothing, so two runs produce the
same final file set as one, and in particular the files the first run
placed at new-format sharded paths (the `nested` component) are untouched
by the second run. -/
theorem migrate_v0_idempotent (env : MigrateEnv) (s : FsState)
    (hnd : (s.rootFiles.map Prod.fst).Nodup) :
    (migrateOnState env (migrateOnState env s).1).1 = (migrateOnState env s).1 := by
  have hshape := migrateGo_output_shape env s.rootFiles [] s (by simp) hnd (by simp)
  exact migrateGo_no_move env _ _ hshape

theorem migrate_v0_idempotent_witness :
    (migrateOnState ⟨fun _ => none, fun _ => true, fun _ => true, fun _ _ => true⟩
        (migrateOnState ⟨fun _ => none, fun _ => true, fun _ => true, fun _ _ => true⟩
          ⟨[("x", 1)], [("p", 2)]⟩).1).1 =
      (migrateOnState ⟨fun _ => none, fun _ => true, fun _ => true, fun _ _ => true⟩
        ⟨[("x", 1)], [("p", 2)]⟩).1 :=
  migrate_v0_idempotent ⟨fun _ => none, fun _ => true, fun _ => true, fun _ _ => true⟩
    ⟨[("x", 1)], [("p", 2)]⟩ (by decide)

/-- Claim C4: in `migrate_v0`'s loop, a regular file whose name base-32
decodes (Crockford) to a valid UTF-8 URL `u` is renamed to the cache root
joined with `key(u)` (it appears at the sharded path and leaves the root
listing), while a file whose name fails decoding or UTF-8 validation is
skipped and remains in place. -/
theorem migrate_entry_rename_or_skip (env : MigrateEnv) (s : FsState)
    (name : String) (fid : Nat) :
    (∀ url, decodeUrl env name = some url →
      env.mkdirOk (MediaCache.keySegs url).dropLast = true →
      env.renameOk name (MediaCache.key url) = true →
      (MediaCache.key url, fid) ∈ (processEntry env s (.file name fid)).1.nested ∧
      (∀ g, (name, g) ∉ (processEntry env s (.file name fid)).1.rootFiles) ∧
      (processEntry env s (.file name fid)).2 = .ok ()) ∧
    (decodeUrl env name = none →
      processEntry env s (.file name fid) = (s, .ok ())) := by
  constructor
  · intro url hdec hmk hrn
    have hstep : processEntry env s (.file name fid) =
        (renameFile s name (MediaCache.key url) fid, .ok ()) := by
      simp [processEntry, hdec, hmk, hrn]
    rw [hstep]
    refine ⟨by simp [renameFile], ?_, rfl⟩
    intro g hg
    simp [renameFile, List.mem_filter] at hg
  · intro hdec
    simp [processEntry, hdec]

theorem migrate_entry_rename_or_skip_witness :
    (MediaCache.key [104], 7) ∈
      (processEntry ⟨fun n => if n = "good" then some [104] else none,
          fun _ => true, fun _ => true, fun _ _ => true⟩
        ⟨[("good", 7)], []⟩ (.file "good" 7)).1.nested ∧
    processEntry ⟨fun n => if n = "good" then some [104] else none,
        fun _ => true, fun _ => true, fun _ _ => true⟩
      ⟨[("good", 7)], []⟩ (.file "bad" 3) = (⟨[("good", 7)], []⟩, .ok ()) := by
  constructor
  · exact ((migrate_entry_rename_or_skip
      ⟨fun n => if n = "good" then some [104] else none,
        fun _ => true, fun _ => true, fun _ _ => true⟩
      ⟨[("good", 7)], []⟩ "good" 7).1 [104] (by decide) rfl rfl).1
  · exact (migrate_entry_rename_or_skip
      ⟨fun n => if n = "good" then some [104] else none,
        fun _ => true, fun _ => true, fun _ _ => true⟩
      ⟨[("good", 7)], []⟩ "bad" 3).2 (by decide)

/-- Claim C2 as stated is false: with a decodable entry whose destination
parent directory cannot be created, `migrate_v0` propagates the
`create_dir_all` error even though the top-level directory enumeration
succeeded. -/
theorem migrate_mkdir_failure_propagates_counterexample :
    migrate_v0 ⟨fun _ => some [104], fun _ => true, fun _ => false, fun _ _ => true⟩
        (.ok [.file "f" 1]) ⟨[("f", 1)], []⟩ =
      (⟨[("f", 1)], []⟩, .error .createDir) ∧
    MigErr.createDir ≠ MigErr.readDir :=
  ⟨rfl, by decide⟩

/-- Claim C2, amended: `migrate_v0` contains the per-entry errors —
unreadable directory entries, non-file entries, malformed/non-UTF-8
filenames and failed renames are logged (or silently) skipped and the loop
continues with the remaining entries — and the failures it propagates to
its caller are exactly a top-level directory-enumeration failure and a
`create_dir_all` failure for a destination's parent directory (the latter
aborting the loop). -/
theorem migrate_error_containment (env : MigrateEnv) (s : FsState) (es : List DirEntry)
    (e : DirEntry) (name dirname : String) (fid : Nat) :
    (processEntry env s .err = (s, .ok ())) ∧
    (processEntry env s (.dir dirname) = (s, .ok ())) ∧
    (decodeUrl env name = none → processEntry env s (.file name fid) = (s, .ok ())) ∧
    (∀ url, decodeUrl env name = some url →
      env.mkdirOk (MediaCache.keySegs url).dropLast = true →
      env.renameOk name (MediaCache.key url) = false →
      processEntry env s (.file name fid) = (s, .ok ())) ∧
    ((processEntry env s e).2 = .ok () →
      migrateGo env (e :: es) s = migrateGo env es (processEntry env s e).1) ∧
    (migrate_v0 env (.error ()) s = (s, .error .readDir)) ∧
    (∀ url, decodeUrl env name = some url →
      env.mkdirOk (MediaCache.keySegs url).dropLast = false →
      migrateGo env (.file name fid :: es) s = (s, .error .createDir)) := by
  refine ⟨rfl, rfl, ?_, ?_, ?_, rfl, ?_⟩
  · intro hdec
    simp [processEntry, hdec]
  · intro url hdec hmk hrn
    simp [processEntry, hdec, hmk, hrn]
  · intro h
    rcases hq : processEntry env s e with ⟨s', r⟩
    rw [hq] at h
    simp only at h
    subst h
    simp [migrateGo, hq]
  · intro url hdec hmk
    exact migrateGo_abort_head env name fid es s ⟨url, hdec, hmk⟩

theorem migrate_error_containment_witness :
    processEntry ⟨fun n => if n = "good" then some [104] else none,
        fun _ => true, fun _ => true, fun _ _ => false⟩
      ⟨[("good", 7)], []⟩ (.file "bad" 3) = (⟨[("good", 7)], []⟩, .ok ()) ∧
    processEntry ⟨fun n => if n = "good" then some [104] else none,
        fun _ => true, fun _ => true, fun _ _ => false⟩
      ⟨[("good", 7)], []⟩ (.file "good" 7) = (⟨[("good", 7)], []⟩, .ok ()) ∧
    migrate_v0 ⟨fun n => if n = "good" then some [104] else none,
        fun _ => true, fun _ => true, fun _ _ => false⟩
      (.error ()) ⟨[("good", 7)], []⟩ = (⟨[("good", 7)], []⟩, .error .readDir) ∧
    migrateGo ⟨fun _ => some [104], fun _ => true, fun _ => false, fun _ _ => true⟩
      [.file "f" 1] ⟨[("f", 1)], []⟩ = (⟨[("f", 1)], []⟩, .error .createDir) := by
  refine ⟨?_, ?_, ?_, ?_⟩
  · exact (migrate_error_containment
      ⟨fun n => if n = "good" then some [104] else none,
        fun _ => true, fun _ => true, fun _ _ => false⟩
      ⟨[("good", 7)], []⟩ [] .err "bad" "d" 3).2.2.1 (by decide)
  · exact (migrate_error_containment
      ⟨fun n => if n = "good" then some [104] else none,
        fun _ => true, fun _ => true, fun _ _ => false⟩
      ⟨[("good", 7)], []⟩ [] .err "good" "d" 7).2.2.2.1 [104] (by decide) rfl rfl
  · exact (migrate_error_containment
      ⟨fun n => if n = "good" then some [104] else none,
        fun _ => true, fun _ => true, fun _ _ => false⟩
      ⟨[("good", 7)], []⟩ [] .err "good" "d" 7).2.2.2.2.2.1
  · exact (migrate_error_containment
      ⟨fun _ => some [104], fun _ => true, fun _ => false, fun _ _ => true⟩
      ⟨[("f", 1)], []⟩ [] .err "f" "d" 1).2.2.2.2.2.2 [104] (by decide) rfl

end Notedeck
